import Mathlib

/-!
# Verification of the covid-epi-image-analysis preprocessing and analytics layer

A shallow embedding of the repository's data-handling code:

* `src/preprocessing/cleaner.py` (`clean_data`)
* `src/preprocessing/missing_values.py` (`handle_missing_values`)
* `src/preprocessing/quality_assessment.py` (`assess_quality`)
* `src/preprocessing/age_categorization.py` (`categorize_age`)
* `src/preprocessing/data_loader.py` (`load_dataset`)
* `src/analytics/sql_interface.py` (`execute_query`)

A Spark dataframe is modelled as a `Table`: a column schema (name plus a flag
recording whether the declared type is numeric) together with a list of rows,
where every cell is nullable (`Option Val`).  Numeric cell values are modelled
as rationals, which matches the exact arithmetic the claims exercise; Python's
binary floating point only differs from exact arithmetic at rounding ties,
and every concrete value appearing in a theorem below is far from a tie.
-/

/-- A cell value: either numeric (modelled exactly as a rational) or a string
category value. -/
inductive Val where
  | num (q : ℚ)
  | str (s : String)
deriving DecidableEq

/-- A nullable cell, as every Spark column here is nullable. -/
abbrev Cell := Option Val

/-- A row: the list of its cells, positionally matching the schema. -/
abbrev Row := List Cell

/-- A dataframe: column schema (name, is-the-declared-type-numeric) and rows.
The Boolean mirrors `isinstance(field.dataType, NumericType)` checks in the
source. -/
structure Table where
  schema : List (String × Bool)
  rows : List Row
deriving DecidableEq

/-- The column-name list, as `df.columns` in the source. -/
def Table.cols (t : Table) : List String := t.schema.map Prod.fst

/-- `len(df.columns)`. -/
def Table.ncols (t : Table) : Nat := t.schema.length

/-- The names of the columns whose declared type is numeric, as the
`numeric_columns` list comprehensions in `missing_values.py` lines 78-82 and
91-95 and `quality_assessment.py` lines 68-72. -/
def Table.numericCols (t : Table) : List String :=
  (t.schema.filter (fun f => f.2)).map Prod.fst

/-- Cell of `row` in the column named `c`, given the schema's column list.
Looking up a name not in the schema yields `none`; the callers below only
reach that case where the source also tolerates it (see `clean_data`). -/
def getCell (cs : List String) (row : Row) (c : String) : Cell :=
  match cs.indexOf? c with
  | some i => row.getD i none
  | none => none

/-! ## Cleaner (`cleaner.py`, `clean_data`) -/

/-- `df.dropDuplicates()`: keep one representative of every duplicate class
(cleaner.py line 58, also quality_assessment.py line 60).  Spark guarantees
no particular row order, so representing the result with `List.dedup` is
faithful up to the ordering the engine leaves unspecified. -/
def dedupTable (t : Table) : Table := { t with rows := t.rows.dedup }

/-- The outlier-filter predicate of cleaner.py lines 66-68:
`(F.col(column) >= lower_bound) & (F.col(column) <= upper_bound)`.
A null cell compares to null and is filtered out, as in Spark. -/
def inBounds (cell : Cell) (lo hi : ℚ) : Bool :=
  match cell with
  | some (Val.num x) => decide (lo ≤ x) && decide (x ≤ hi)
  | _ => false

/-- One iteration of the outlier loop (cleaner.py lines 64-70). -/
def applyOutlierRule (t : Table) (r : String × ℚ × ℚ) : Table :=
  { t with rows := t.rows.filter (fun row => inBounds (getCell t.cols row r.1) r.2.1 r.2.2) }

/-- The outlier loop: rules applied sequentially in mapping order
(cleaner.py lines 63-70). -/
def applyOutliers (rules : List (String × ℚ × ℚ)) (t : Table) : Table :=
  rules.foldl applyOutlierRule t

/-- The outlier loop together with the per-column removed counts the source
prints (`initial_count - final_count`, cleaner.py lines 65-70). -/
def applyOutliersWithCounts : List (String × ℚ × ℚ) → Table → Table × List Nat
  | [], t => (t, [])
  | r :: rs, t =>
    let t1 := applyOutlierRule t r
    let rec0 := t.rows.length - t1.rows.length
    let p := applyOutliersWithCounts rs t1
    (p.1, rec0 :: p.2)

/-- A standardization rule key: an exact value or a callable predicate,
dispatched by `callable(pattern)` in cleaner.py line 77. -/
inductive StdPattern where
  | exact (v : Val)
  | pred (p : Val → Bool)

/-- One `F.when(cond, replacement).otherwise(F.col(column))` rewrite of a
single cell (cleaner.py lines 78-90).  A null cell satisfies neither an
equality nor a predicate condition in Spark, so it is left null. -/
def applyStdRule (cell : Cell) (pat : StdPattern) (repl : Val) : Cell :=
  match cell, pat with
  | some v, StdPattern.exact w => if v = w then some repl else some v
  | some v, StdPattern.pred p => if p v then some repl else some v
  | none, _ => none

/-- `df.withColumn(c, f)` for an existing column `c`: rewrite that column
cell-wise, leaving the schema unchanged.  An unknown column name is a no-op
here; the call sites guard or (for `na.fill`) Spark itself ignores it. -/
def mapColumn (t : Table) (c : String) (f : Cell → Cell) : Table :=
  match t.cols.indexOf? c with
  | some i => { t with rows := t.rows.map (fun row => row.set i (f (row.getD i none))) }
  | none => t

/-- The per-column standardization loop (cleaner.py lines 74-90): a column
absent from the table is silently skipped; rules of one column apply in
order, later rules seeing earlier replacements. -/
def applyStd (t : Table) (colRules : String × List (StdPattern × Val)) : Table :=
  if t.cols.contains colRules.1 then
    colRules.2.foldl
      (fun acc pr => mapColumn acc colRules.1 (fun cell => applyStdRule cell pr.1 pr.2)) t
  else t

/-- `clean_data` (cleaner.py lines 13-92): optional duplicate removal, then the
sequential outlier filters, then category standardization.  Spark raises an
`AnalysisException` when an outlier rule names a column that does not exist;
that error path is modelled as `none` (the existence check is hoisted before
the filters, which is observationally equivalent because no dataframe escapes
the failing call). -/
def clean_data (t : Table) (removeDuplicates : Bool)
    (removeOutliers : List (String × ℚ × ℚ))
    (standardizeCategories : List (String × List (StdPattern × Val))) : Option Table :=
  let t1 := if removeDuplicates then dedupTable t else t
  if removeOutliers.all (fun r => t1.cols.contains r.1) then
    some (standardizeCategories.foldl applyStd (applyOutliers removeOutliers t1))
  else none

/-! ## Missing-value handler (`missing_values.py`, `handle_missing_values`) -/

/-- Number of null cells of a row across the table's columns, as the
`null_counts` sum of `F.when(F.col(c).isNull(), 1).otherwise(0)` terms
(missing_values.py lines 56-58). -/
def rowNullCount (nc : Nat) (row : Row) : Nat :=
  (List.range nc).countP (fun j => (row.getD j none).isNone)

/-- The threshold-drop step (missing_values.py lines 54-60): when a threshold
in `[0,1]` is supplied, keep exactly the rows whose null fraction is `≤` the
threshold.  A threshold outside `[0,1]` fails the guard on line 54 and the
step does nothing.  (Python would raise `ZeroDivisionError` on a zero-column
table; rational division by zero keeps all rows here, and the theorems using
this step assume at least one column.) -/
def thresholdStep (dropThreshold : Option ℚ) (t : Table) : Table :=
  match dropThreshold with
  | some θ =>
    if 0 ≤ θ ∧ θ ≤ 1 then
      { t with rows := t.rows.filter (fun row =>
          decide ((rowNullCount t.ncols row : ℚ) / (t.ncols : ℚ) ≤ θ)) }
    else t
  | none => t

/-- Spark's `na.fill` only fills columns whose declared type matches the fill
value's type; mismatches are silently ignored. -/
def typeMatches (isNum : Bool) (v : Val) : Bool :=
  match v with
  | Val.num _ => isNum
  | Val.str _ => !isNum

/-- Declared is-numeric flag of a named column, if it exists. -/
def schemaIsNum (t : Table) (c : String) : Option Bool :=
  (t.schema.find? (fun f => f.1 = c)).map Prod.snd

/-- `df.na.fill({c: v})`: replace nulls of column `c` by `v` when the column
exists and its type matches `v`; otherwise Spark ignores the entry. -/
def fillColumn (t : Table) (c : String) (v : Val) : Table :=
  match schemaIsNum t c with
  | some b => if typeMatches b v then mapColumn t c (fun cell => some (cell.getD v)) else t
  | none => t

/-- `filled_df.na.fill(fill_values)` (missing_values.py lines 63-64). -/
def fillValuesStep (fv : List (String × Val)) (t : Table) : Table :=
  fv.foldl (fun acc p => fillColumn acc p.1 p.2) t

/-- All cells of the column named `c`, in row order. -/
def colCells (t : Table) (c : String) : List Cell :=
  t.rows.map (fun row => getCell t.cols row c)

/-- The numeric values of a cell list, nulls skipped — the population that
Spark's null-ignoring aggregates `F.mean` and `F.median` see. -/
def ratsOf (cells : List Cell) : List ℚ :=
  cells.filterMap (fun cell =>
    match cell with
    | some (Val.num x) => some x
    | _ => none)

/-- `F.mean` over a column's non-null values (null when there are none). -/
def meanOf (ys : List ℚ) : Option ℚ :=
  if ys.isEmpty then none else some (ys.sum / (ys.length : ℚ))

/-- `F.median` over a column's non-null values: the exact median, averaging
the two middle elements for an even count (null when there are none). -/
def medianOf (ys : List ℚ) : Option ℚ :=
  let s := List.insertionSort (fun a b => a ≤ b) ys
  let n := s.length
  if n = 0 then none
  else if n % 2 = 1 then some (s.getD (n / 2) 0)
  else some ((s.getD (n / 2 - 1) 0 + s.getD (n / 2) 0) / 2)

/-- The mean statistic of a column (missing_values.py line 101). -/
def meanStat (cells : List Cell) : Option ℚ := meanOf (ratsOf cells)

/-- The median statistic of a column (missing_values.py line 99). -/
def medianStat (cells : List Cell) : Option ℚ := medianOf (ratsOf cells)

/-- Distinct cell values in first-encountered order, with an accumulator of
values already seen. -/
def firstSeenAux : List Cell → List Cell → List Cell
  | [], _ => []
  | x :: xs, seen =>
    if x ∈ seen then firstSeenAux xs seen else x :: firstSeenAux xs (x :: seen)

/-- Distinct cell values of a column in first-encountered order: the groups
that `groupBy(column).count()` produces, enumerated deterministically.  Spark
leaves the order of equal-count groups unspecified; this model fixes the
spec-sanctioned deterministic choice (first encountered wins ties). -/
def firstSeen (cells : List Cell) : List Cell := firstSeenAux cells []

/-- The earliest candidate with the maximal number of occurrences in `xs`:
`orderBy(F.desc("count")).first()` under the deterministic tie-break. -/
def argmaxCount (xs : List Cell) : List Cell → Option Cell
  | [] => none
  | v :: vs =>
    match argmaxCount xs vs with
    | none => some v
    | some w => if xs.count w > xs.count v then some w else some v

/-- `groupBy(column).count().orderBy(F.desc("count")).first()[0]`
(missing_values.py lines 102-108).  Note the grouping includes the null
group, so the result cell can itself be null; `none` (no group at all) only
occurs for a zero-row table, where the source raises `TypeError` when
subscripting `first()`. -/
def modeTop (cells : List Cell) : Option Cell := argmaxCount cells (firstSeen cells)

/-- One iteration of the statistic-fill loop body (missing_values.py lines
97-112): compute the strategy's statistic for the column and fill the
column's nulls with it when it is not null.  `none` models the `TypeError`
the source raises for the mode strategy on a zero-row table. -/
def statFillColumn (strategy : String) (t : Table) (c : String) : Option Table :=
  if strategy = "mode" then
    match modeTop (colCells t c) with
    | none => none
    | some none => some t
    | some (some v) => some (fillColumn t c v)
  else
    match (if strategy = "median" then medianStat (colCells t c) else meanStat (colCells t c)) with
    | none => some t
    | some x => some (fillColumn t c (Val.num x))

/-- The statistic-fill loop over the numeric columns (missing_values.py lines
89-112). -/
def statStep (strategy : String) (t : Table) : Option Table :=
  t.numericCols.foldlM (fun acc c => statFillColumn strategy acc c) t

/-- `handle_missing_values` (missing_values.py lines 14-114): optional
threshold drop, optional explicit fills, then the global strategy
("drop" / "zero" / "median" / "mean" / "mode"; any other tag is a no-op). -/
def handle_missing_values (t : Table) (strategy : String)
    (fillValues : List (String × Val)) (dropThreshold : Option ℚ) : Option Table :=
  let t1 := thresholdStep dropThreshold t
  let t2 := fillValuesStep fillValues t1
  if strategy = "drop" then
    some { t2 with rows := t2.rows.filter (fun row =>
      (List.range t2.ncols).all (fun j => !(row.getD j none).isNone)) }
  else if strategy = "zero" then
    some (t2.numericCols.foldl (fun acc c => fillColumn acc c (Val.num 0)) t2)
  else if strategy = "median" ∨ strategy = "mean" ∨ strategy = "mode" then
    statStep strategy t2
  else
    some t2

/-! ## Quality assessor (`quality_assessment.py`, `assess_quality`) -/

/-- Null count of column `j` (by position), as the per-column
`df.filter(F.col(column).isNull()).count()` scan of quality_assessment.py
lines 47-51. -/
def missingCount (t : Table) (j : Nat) : Nat :=
  t.rows.countP (fun row => (row.getD j none).isNone)

/-- `sum(missing_values.values())` (quality_assessment.py line 55). -/
def totalMissing (t : Table) : Nat :=
  ((List.range t.ncols).map (fun j => missingCount t j)).sum

/-- The completeness formula of quality_assessment.py line 56:
`((total_cells - missing_cells) / total_cells) * 100`, before rounding. -/
def completenessRaw (t : Table) : ℚ :=
  (((t.rows.length * t.ncols : Nat) : ℚ) - (totalMissing t : ℚ))
    / ((t.rows.length * t.ncols : Nat) : ℚ) * 100

/-- Python's `round(x, 2)`, modelled as exact rounding of the rational to the
nearest multiple of `1/100`.  Python rounds binary floats half-to-even; the
two agree at every value that is not a representation-perturbed tie, and
every concrete value a theorem below rounds is far from a tie. -/
def round2 (x : ℚ) : ℚ := ((round (x * 100) : ℤ) : ℚ) / 100

/-- The stored `completeness_percentage` (quality_assessment.py line 57).
On a table with no cells the source raises `ZeroDivisionError` at line 56;
that error path is modelled as `none`. -/
def completenessPct (t : Table) : Option ℚ :=
  if t.rows.length * t.ncols = 0 then none else some (round2 (completenessRaw t))

/-- The `duplicate_rows` metric: `df.count() - df.dropDuplicates().count()`
(quality_assessment.py line 60). -/
def duplicateRows (t : Table) : Nat := t.rows.length - t.rows.dedup.length

/-- Sample variance over a column's non-null values, null when fewer than two
values exist.  Spark's `F.stddev` returns the square root of exactly this
quantity, and it is null exactly when this is null. -/
def varianceOf (ys : List ℚ) : Option ℚ :=
  if ys.length < 2 then none
  else
    match meanOf ys with
    | none => none
    | some m => some ((ys.map (fun y => (y - m) ^ 2)).sum / ((ys.length : ℚ) - 1))

/-- The `mean` entry of the numeric summary (quality_assessment.py line 86):
`round(stats["mean"], 2) if stats["mean"] else None`.  The Python truthiness
test maps both a null mean and a mean equal to exactly 0 to `None`. -/
def reportedMean (cells : List Cell) : Option ℚ :=
  match meanStat cells with
  | none => none
  | some m => if m = 0 then none else some (round2 m)

/-- Python's `round(x, 2)` over the reals, for rounding the (generally
irrational) standard deviation; same tie caveat as `round2`. -/
noncomputable def round2R (x : ℝ) : ℝ := ((round (x * 100) : ℤ) : ℝ) / 100

/-- The `stddev` entry of the numeric summary (quality_assessment.py line
87): `round(stats["stddev"], 2) if stats["stddev"] else None`.  Spark's
`F.stddev` is the square root of the sample variance (null when fewer than
two non-null values exist); the truthiness test maps both a null and an
exactly-zero standard deviation to `None`, and any other value is reported
rounded to two decimals.  The value is a real number because the square root
of a rational is generally irrational — the one spot where the source's
arithmetic leaves the rationals. -/
noncomputable def reportedStddev (cells : List Cell) : Option ℝ :=
  match varianceOf (ratsOf cells) with
  | none => none
  | some v =>
    if Real.sqrt (v : ℝ) = 0 then none
    else some (round2R (Real.sqrt (v : ℝ)))

/-! ## Age categorizer (`age_categorization.py`, `categorize_age`) -/

/-- `categorize_age` (age_categorization.py lines 50-58): null in, null out;
otherwise under 30 is Junior, under 60 is Middle, 60 and over is Senior. -/
def categorize_age : Option Int → Option String
  | none => none
  | some age =>
    if age < 30 then some "Junior"
    else if age < 60 then some "Middle"
    else some "Senior"

/-- Position of a band in the fixed order Junior < Middle < Senior, used to
state monotonicity of the categorizer. -/
def bandRank (b : Option String) : Nat :=
  if b = some "Junior" then 0
  else if b = some "Middle" then 1
  else if b = some "Senior" then 2
  else 3

/-! ## Loader (`data_loader.py`, `load_dataset`) -/

/-- Outcome of a load: a table handle, or one of the two failure modes.  The
failure constructors carry no table, matching "fail immediately, no partial
state". -/
inductive LoadResult (α : Type) where
  | ok (t : α)
  | notFound
  | unsupported
deriving DecidableEq

/-- The format tags `load_dataset` recognizes (data_loader.py lines 64-82). -/
def supportedFormats : List String := ["csv", "parquet", "json", "orc", "avro"]

/-- `load_dataset` (data_loader.py lines 61-86): the existence check runs
before any read; an unrecognized format tag fails after it.  The engine's
reader is abstracted as `engineRead` (its options — header, schema, mode —
are passed through and do not affect this control flow), and the file system
as the predicate `pathExists`. -/
def load_dataset {α : Type} (pathExists : String → Bool) (engineRead : String → String → α)
    (filePath : String) (formatTag : String) : LoadResult α :=
  if !pathExists filePath then LoadResult.notFound
  else if formatTag = "csv" then LoadResult.ok (engineRead "csv" filePath)
  else if formatTag = "parquet" then LoadResult.ok (engineRead "parquet" filePath)
  else if formatTag = "json" then LoadResult.ok (engineRead "json" filePath)
  else if formatTag = "orc" then LoadResult.ok (engineRead "orc" filePath)
  else if formatTag = "avro" then LoadResult.ok (engineRead "avro" filePath)
  else LoadResult.unsupported

/-! ## SQL interface (`sql_interface.py`, `execute_query`) -/

/-- The row-cap logic of `execute_query` (sql_interface.py lines 72-79): the
engine's result is abstracted as the row list `result`; `if limit:` is
Python truthiness, so both `None` and `0` leave the result uncapped. -/
def execute_query {α : Type} (result : List α) (limit : Option Nat) : List α :=
  match limit with
  | some n => if n = 0 then result else result.take n
  | none => result

/-! ## Spec-side definitions (for refinement comparisons only)

These two definitions follow the specification's words, not the source, and
exist only to be compared with the source-derived definitions above. -/

/-- Modelled from the spec: "mode = most frequent value" computed "over
non-null values" (spec section 4.3), with the spec's first-encountered
tie-break.  Compare with `modeTop`, which groups nulls too. -/
def specModeNonNull (cells : List Cell) : Option Val :=
  match modeTop (cells.filter (fun cell => cell.isSome)) with
  | some (some v) => some v
  | _ => none

/-- Modelled from the spec: "mean/stddev rounded to 2 decimal places" with
only a null statistic "reported as undefined" (spec section 4.4).  Compare
with `reportedMean`, which also maps a zero mean to undefined. -/
def specReportedMean (cells : List Cell) : Option ℚ :=
  (meanStat cells).map round2

/-! ## Small concrete tables used by witnesses -/

/-- A two-column table: one row with a null sex, one fully null row. -/
def tinyT : Table :=
  ⟨[("age", true), ("sex", false)], [[some (Val.num 5), none], [none, none]]⟩

/-! ## C1: duplicate counting -/

/-- C1: the assessor's duplicate-row count equals the row count minus the row
count after the cleaner's exact-duplicate removal, and assessing a table right
after duplicate removal (a `clean_data` call doing only that) reports zero
duplicate rows. -/
theorem duplicate_count_spec (t : Table) :
    duplicateRows t = t.rows.length - (dedupTable t).rows.length ∧
    duplicateRows (dedupTable t) = 0 ∧
    clean_data t true [] [] = some (dedupTable t) := by
  refine ⟨rfl, ?_, rfl⟩
  simp [duplicateRows, dedupTable, List.dedup_idem]

/-! ## C2: age categorization -/

/-- C2: the age categorizer sends null to null; a defined age below 30 to
Junior, in [30,60) to Middle, at least 60 to Senior (and to nothing else);
the map is monotone in the band order Junior < Middle < Senior; and the
boundary ages 29/30 and 59/60 land in Junior/Middle and Middle/Senior. -/
theorem categorize_age_spec :
    categorize_age none = none ∧
    (∀ a : Int, a < 30 → categorize_age (some a) = some "Junior") ∧
    (∀ a : Int, 30 ≤ a → a < 60 → categorize_age (some a) = some "Middle") ∧
    (∀ a : Int, 60 ≤ a → categorize_age (some a) = some "Senior") ∧
    (∀ a : Int, categorize_age (some a) = some "Junior" ∨
      categorize_age (some a) = some "Middle" ∨
      categorize_age (some a) = some "Senior") ∧
    (∀ a b : Int, a < b →
      bandRank (categorize_age (some a)) ≤ bandRank (categorize_age (some b))) ∧
    categorize_age (some 29) = some "Junior" ∧
    categorize_age (some 30) = some "Middle" ∧
    categorize_age (some 59) = some "Middle" ∧
    categorize_age (some 60) = some "Senior" := by
  have hJ : bandRank (some "Junior") = 0 := rfl
  have hM : bandRank (some "Middle") = 1 := rfl
  have hS : bandRank (some "Senior") = 2 := rfl
  refine ⟨rfl, ?_, ?_, ?_, ?_, ?_, by decide, by decide, by decide, by decide⟩
  · intro a h
    simp only [categorize_age]
    rw [if_pos h]
  · intro a h1 h2
    simp only [categorize_age]
    rw [if_neg (by omega), if_pos h2]
  · intro a h
    simp only [categorize_age]
    rw [if_neg (by omega), if_neg (by omega)]
  · intro a
    simp only [categorize_age]
    split_ifs <;> simp
  · intro a b hab
    simp only [categorize_age]
    split_ifs <;> simp only [hJ, hM, hS] <;> omega

/-- C2 witness: concrete instances of the conditional parts of
`categorize_age_spec`. -/
theorem categorize_age_spec_witness :
    categorize_age (some 25) = some "Junior" ∧
    bandRank (categorize_age (some 25)) ≤ bandRank (categorize_age (some 45)) :=
  ⟨categorize_age_spec.2.1 25 (by decide),
   categorize_age_spec.2.2.2.2.2.1 25 45 (by decide)⟩

/-! ## C4: missing-value threshold filtering -/

/-- C4: with a threshold `θ` in `[0,1]`, a row whose null fraction equals `θ`
exactly is retained by the threshold filter, and a row whose null fraction
strictly exceeds `θ` is removed. -/
theorem threshold_boundary_spec (t : Table) (θ : ℚ) (row : Row)
    (h0 : 0 ≤ θ) (h1 : θ ≤ 1) (_hc : t.ncols ≠ 0) (hrow : row ∈ t.rows) :
    ((rowNullCount t.ncols row : ℚ) / (t.ncols : ℚ) = θ →
      row ∈ (thresholdStep (some θ) t).rows) ∧
    ((rowNullCount t.ncols row : ℚ) / (t.ncols : ℚ) > θ →
      row ∉ (thresholdStep (some θ) t).rows) := by
  simp only [thresholdStep, if_pos (And.intro h0 h1)]
  constructor
  · intro he
    refine List.mem_filter.mpr ⟨hrow, ?_⟩
    rw [he]
    simp
  · intro hg hmem
    have hp := (List.mem_filter.mp hmem).2
    have := of_decide_eq_true hp
    exact absurd this (not_le.mpr hg)

/-- C4 witness: in `tinyT` (two columns, threshold 1/2) the half-null row is
retained and the fully null row is removed. -/
theorem threshold_boundary_spec_witness :
    [some (Val.num 5), none] ∈ (thresholdStep (some (1 / 2)) tinyT).rows ∧
    [none, none] ∉ (thresholdStep (some (1 / 2)) tinyT).rows := by
  constructor
  · refine (threshold_boundary_spec tinyT (1 / 2) _ (by norm_num) (by norm_num)
      (by decide) (by decide)).1 ?_
    rw [show rowNullCount tinyT.ncols [some (Val.num 5), none] = 1 from by decide,
      show tinyT.ncols = 2 from rfl]
    norm_num
  · refine (threshold_boundary_spec tinyT (1 / 2) _ (by norm_num) (by norm_num)
      (by decide) (by decide)).2 ?_
    rw [show rowNullCount tinyT.ncols [(none : Cell), none] = 2 from by decide,
      show tinyT.ncols = 2 from rfl]
    norm_num

/-! ## C9: loader error behaviour -/

/-- C9: the loader reports not-found exactly when the path does not exist
(checked before any read, so even an unrecognized format tag on a missing
path reports not-found), reports unsupported-format exactly when the path
exists and the tag is outside the recognized set, and in both failure cases
returns a bare error constructor carrying no table. -/
theorem load_dataset_spec (α : Type) (pathExists : String → Bool)
    (engineRead : String → String → α) (p f : String) :
    (load_dataset pathExists engineRead p f = LoadResult.notFound ↔
      pathExists p = false) ∧
    (load_dataset pathExists engineRead p f = LoadResult.unsupported ↔
      pathExists p = true ∧ f ∉ supportedFormats) ∧
    ((∃ tbl, load_dataset pathExists engineRead p f = LoadResult.ok tbl) ↔
      pathExists p = true ∧ f ∈ supportedFormats) := by
  cases hp : pathExists p with
  | false => simp [load_dataset, hp]
  | true =>
    simp only [load_dataset, hp, Bool.not_true, Bool.false_eq_true, if_false]
    split_ifs with h1 h2 h3 h4 h5 <;> simp_all [supportedFormats]

/-- C9 witness: an existing path with an unrecognized tag yields the
unsupported-format failure. -/
theorem load_dataset_spec_witness :
    load_dataset (fun _ => true) (fun _ _ => (0 : Nat)) "data.csv" "xml" =
      LoadResult.unsupported :=
  ((load_dataset_spec Nat (fun _ => true) (fun _ _ => 0) "data.csv" "xml").2.1).mpr
    ⟨rfl, by decide⟩

/-! ## C10: SQL row cap of zero -/

/-- C10: a row cap of exactly 0 is Python-falsy in `execute_query`, so it is
treated the same as supplying no cap and the full query result is returned. -/
theorem execute_query_zero_cap (α : Type) (result : List α) :
    execute_query result (some 0) = result ∧
    execute_query result (some 0) = execute_query result none := by
  constructor <;> rfl

/-! ## C5: outlier filtering -/

theorem applyOutliers_rows_sublist (rules : List (String × ℚ × ℚ)) (t : Table) :
    (applyOutliers rules t).rows.Sublist t.rows := by
  induction rules generalizing t with
  | nil => exact List.Sublist.refl _
  | cons r rs ih =>
    exact (ih (applyOutlierRule t r)).trans (List.filter_sublist t.rows)

/-- A cell passes the bound predicate exactly when it holds a numeric value
inside the inclusive interval. -/
theorem inBounds_iff (cell : Cell) (lo hi : ℚ) :
    inBounds cell lo hi = true ↔
      ∃ v : ℚ, cell = some (Val.num v) ∧ lo ≤ v ∧ v ≤ hi := by
  cases cell with
  | none => simp [inBounds]
  | some v =>
    cases v with
    | num x => simp [inBounds, and_assoc]
    | str s => simp [inBounds]

theorem mem_applyOutliers_inBounds (rules : List (String × ℚ × ℚ)) (t : Table)
    (row : Row) (c : String) (lo hi : ℚ)
    (hr : (c, lo, hi) ∈ rules) (hm : row ∈ (applyOutliers rules t).rows) :
    inBounds (getCell t.cols row c) lo hi = true := by
  induction rules generalizing t with
  | nil => cases hr
  | cons r rs ih =>
    obtain ⟨c1, lo1, hi1⟩ := r
    have hm2 : row ∈ (applyOutliers rs (applyOutlierRule t (c1, lo1, hi1))).rows := hm
    rcases List.mem_cons.mp hr with h | h
    · simp only [Prod.mk.injEq] at h
      obtain ⟨rfl, rfl, rfl⟩ := h
      have hmem : row ∈ (applyOutlierRule t (c, lo, hi)).rows :=
        (applyOutliers_rows_sublist rs (applyOutlierRule t (c, lo, hi))).subset hm2
      exact (List.mem_filter.mp hmem).2
    · exact ih (applyOutlierRule t (c1, lo1, hi1)) h hm2

theorem applyOutliersWithCounts_fst (rules : List (String × ℚ × ℚ)) (t : Table) :
    (applyOutliersWithCounts rules t).1 = applyOutliers rules t := by
  induction rules generalizing t with
  | nil => rfl
  | cons r rs ih =>
    show (applyOutliersWithCounts rs (applyOutlierRule t r)).1
      = applyOutliers rs (applyOutlierRule t r)
    exact ih (applyOutlierRule t r)

theorem applyOutliersWithCounts_counts (rules : List (String × ℚ × ℚ)) (t : Table)
    (i : Nat) (hi : i < rules.length) :
    (applyOutliersWithCounts rules t).2.getD i 0 =
      (applyOutliers (rules.take i) t).rows.length -
      (applyOutliers (rules.take (i + 1)) t).rows.length := by
  induction rules generalizing t i with
  | nil => cases hi
  | cons r rs ih =>
    cases i with
    | zero => rfl
    | succ i =>
      have h2 : i < rs.length := by simpa using hi
      show ((applyOutliersWithCounts rs (applyOutlierRule t r)).2).getD i 0 = _
      rw [ih (applyOutlierRule t r) i h2]
      rfl

/-- C5: after outlier filtering, every surviving row holds a numeric value
inside the configured inclusive bounds in every configured column; the
filters compose sequentially in rule order (so any prefix of the rules can
be applied first and the rest after, on its output); and the per-column
removed count of each rule is measured on the table as filtered by all
earlier rules, so a row removed earlier is absent from subsequent counts. -/
theorem outlier_filter_spec (t : Table) (rules : List (String × ℚ × ℚ)) :
    (∀ c lo hi row, (c, lo, hi) ∈ rules → row ∈ (applyOutliers rules t).rows →
      ∃ v : ℚ, getCell t.cols row c = some (Val.num v) ∧ lo ≤ v ∧ v ≤ hi) ∧
    (∀ pre post, rules = pre ++ post →
      applyOutliers rules t = applyOutliers post (applyOutliers pre t)) ∧
    (applyOutliersWithCounts rules t).1 = applyOutliers rules t ∧
    (∀ i, i < rules.length →
      (applyOutliersWithCounts rules t).2.getD i 0 =
        (applyOutliers (rules.take i) t).rows.length -
        (applyOutliers (rules.take (i + 1)) t).rows.length) := by
  refine ⟨?_, ?_, applyOutliersWithCounts_fst rules t,
    fun i hi => applyOutliersWithCounts_counts rules t i hi⟩
  · intro c lo hi row hr hm
    exact (inBounds_iff _ _ _).mp (mem_applyOutliers_inBounds rules t row c lo hi hr hm)
  · intro pre post hsplit
    rw [hsplit]
    simp [applyOutliers, List.foldl_append]

/-- A three-row table for the outlier witness: one in-range value, one
out-of-range value, one null. -/
def outlierT : Table :=
  ⟨[("age", true)], [[some (Val.num 5)], [some (Val.num 200)], [none]]⟩

/-- C5 witness: the surviving row of `outlierT` under the rule
`("age", [0, 100])` carries an in-range value. -/
theorem outlier_filter_spec_witness :
    ∃ v : ℚ, getCell outlierT.cols [some (Val.num 5)] "age" = some (Val.num v) ∧
      0 ≤ v ∧ v ≤ 100 :=
  (outlier_filter_spec outlierT [("age", 0, 100)]).1 "age" 0 100 [some (Val.num 5)]
    (by decide) (by decide)

/-! ## C8: schema preservation -/

theorem foldl_schema_preserved {β : Type} (f : Table → β → Table)
    (hf : ∀ t b, (f t b).schema = t.schema) (l : List β) (t : Table) :
    (l.foldl f t).schema = t.schema := by
  induction l generalizing t with
  | nil => rfl
  | cons b bs ih => exact (ih (f t b)).trans (hf t b)

theorem mapColumn_schema (t : Table) (c : String) (f : Cell → Cell) :
    (mapColumn t c f).schema = t.schema := by
  unfold mapColumn
  cases t.cols.indexOf? c <;> rfl

theorem fillColumn_schema (t : Table) (c : String) (v : Val) :
    (fillColumn t c v).schema = t.schema := by
  unfold fillColumn
  cases schemaIsNum t c with
  | none => rfl
  | some b =>
    dsimp only
    split
    · exact mapColumn_schema t c _
    · rfl

theorem applyOutliers_schema (rules : List (String × ℚ × ℚ)) (t : Table) :
    (applyOutliers rules t).schema = t.schema :=
  foldl_schema_preserved applyOutlierRule (fun _ _ => rfl) rules t

theorem applyStd_schema (t : Table) (colRules : String × List (StdPattern × Val)) :
    (applyStd t colRules).schema = t.schema := by
  unfold applyStd
  split
  · exact foldl_schema_preserved _ (fun t1 pr => mapColumn_schema t1 colRules.1 _) _ t
  · rfl

theorem clean_data_schema (t : Table) (rd : Bool) (rules : List (String × ℚ × ℚ))
    (std : List (String × List (StdPattern × Val))) (out : Table)
    (h : clean_data t rd rules std = some out) : out.schema = t.schema := by
  have key : ∀ t1 : Table,
      (if rules.all (fun r => t1.cols.contains r.1) then
        some (std.foldl applyStd (applyOutliers rules t1)) else none) = some out →
      out.schema = t1.schema := by
    intro t1 h1
    split at h1
    · rw [← Option.some_injective _ h1]
      exact (foldl_schema_preserved applyStd (fun a b => applyStd_schema a b) std
        (applyOutliers rules t1)).trans (applyOutliers_schema rules t1)
    · cases h1
  cases rd with
  | false => exact key t h
  | true => exact (key (dedupTable t) h).trans rfl

theorem thresholdStep_schema (thr : Option ℚ) (t : Table) :
    (thresholdStep thr t).schema = t.schema := by
  unfold thresholdStep
  cases thr with
  | none => rfl
  | some θ =>
    dsimp only
    split <;> rfl

theorem thresholdStep_rows_sublist (thr : Option ℚ) (t : Table) :
    (thresholdStep thr t).rows.Sublist t.rows := by
  unfold thresholdStep
  cases thr with
  | none => exact List.Sublist.refl _
  | some θ =>
    dsimp only
    split
    · exact List.filter_sublist t.rows
    · exact List.Sublist.refl _

theorem fillValuesStep_schema (fv : List (String × Val)) (t : Table) :
    (fillValuesStep fv t).schema = t.schema := by
  unfold fillValuesStep
  exact foldl_schema_preserved _ (fun t1 p => fillColumn_schema t1 p.1 p.2) fv t

theorem statFillColumn_schema (s : String) (t : Table) (c : String) (u : Table)
    (h : statFillColumn s t c = some u) : u.schema = t.schema := by
  unfold statFillColumn at h
  split at h
  · split at h
    · cases h
    · cases h
      rfl
    · cases h
      exact fillColumn_schema t c _
  · split at h
    · cases h
      rfl
    · cases h
      exact fillColumn_schema t c _

theorem foldlM_statFill_schema (s : String) (l : List String) (t u : Table)
    (h : l.foldlM (fun acc c => statFillColumn s acc c) t = some u) :
    u.schema = t.schema := by
  induction l generalizing t with
  | nil =>
    cases h
    rfl
  | cons c cs ih =>
    rw [List.foldlM_cons] at h
    cases hx : statFillColumn s t c with
    | none =>
      rw [hx] at h
      cases h
    | some t1 =>
      rw [hx] at h
      simp only [Option.bind_eq_bind, Option.some_bind] at h
      exact (ih t1 h).trans (statFillColumn_schema s t c t1 hx)

theorem statStep_schema (s : String) (t u : Table) (h : statStep s t = some u) :
    u.schema = t.schema :=
  foldlM_statFill_schema s t.numericCols t u h

theorem handle_missing_values_schema (t : Table) (strategy : String)
    (fv : List (String × Val)) (thr : Option ℚ) (out : Table)
    (h : handle_missing_values t strategy fv thr = some out) :
    out.schema = t.schema := by
  unfold handle_missing_values at h
  have hbase : (fillValuesStep fv (thresholdStep thr t)).schema = t.schema :=
    (fillValuesStep_schema fv (thresholdStep thr t)).trans (thresholdStep_schema thr t)
  split at h
  · cases h
    exact hbase
  · split at h
    · cases h
      exact (foldl_schema_preserved _
        (fun t1 c => fillColumn_schema t1 c (Val.num 0)) _ _).trans hbase
    · split at h
      · exact (statStep_schema strategy _ out h).trans hbase
      · cases h
        exact hbase

/-- C8: cleaning and missing-value handling never add or remove columns —
whenever `clean_data` or `handle_missing_values` returns a table, its column
list equals the input's; and the missing-value threshold filter removes only
rows (its output rows form a sublist of the input rows), never columns. -/
theorem schema_preserved_spec :
    (∀ t rd rules std out, clean_data t rd rules std = some out →
      out.cols = t.cols) ∧
    (∀ t strategy fv thr out, handle_missing_values t strategy fv thr = some out →
      out.cols = t.cols) ∧
    (∀ thr t, (thresholdStep thr t).cols = t.cols ∧
      (thresholdStep thr t).rows.Sublist t.rows) := by
  refine ⟨?_, ?_, ?_⟩
  · intro t rd rules std out h
    unfold Table.cols
    rw [clean_data_schema t rd rules std out h]
  · intro t strategy fv thr out h
    unfold Table.cols
    rw [handle_missing_values_schema t strategy fv thr out h]
  · intro thr t
    constructor
    · unfold Table.cols
      rw [thresholdStep_schema thr t]
    · exact thresholdStep_rows_sublist thr t

/-- C8 witness: a duplicate-removal-only clean of `tinyT` keeps the column
list unchanged. -/
theorem schema_preserved_spec_witness : (dedupTable tinyT).cols = tinyT.cols :=
  schema_preserved_spec.1 tinyT true [] [] (dedupTable tinyT) rfl

/-! ## C3: statistic imputation -/

theorem ratsOf_filter_isSome (cells : List Cell) :
    ratsOf (cells.filter (fun cell => cell.isSome)) = ratsOf cells := by
  induction cells with
  | nil => rfl
  | cons c cs ih =>
    cases c with
    | none => simpa [ratsOf, List.filter_cons] using ih
    | some v => cases v <;> simpa [ratsOf, List.filter_cons] using ih

theorem ratsOf_all_none (cells : List Cell) (h : ∀ c ∈ cells, c = none) :
    ratsOf cells = [] := by
  induction cells with
  | nil => rfl
  | cons c cs ih =>
    have hc : c = none := h c (by simp)
    subst hc
    simpa [ratsOf] using ih (fun x hx => h x (by simp [hx]))

theorem firstSeenAux_all_none (cells : List Cell) (seen : List Cell)
    (h : ∀ c ∈ cells, c = none) (hs : none ∈ seen) : firstSeenAux cells seen = [] := by
  induction cells generalizing seen with
  | nil => rfl
  | cons c cs ih =>
    have hc : c = none := h c (by simp)
    subst hc
    show (if (none : Cell) ∈ seen then firstSeenAux cs seen
      else none :: firstSeenAux cs (none :: seen)) = []
    rw [if_pos hs]
    exact ih seen (fun x hx => h x (List.mem_cons_of_mem _ hx)) hs

theorem modeTop_all_none (cells : List Cell) (hne : cells ≠ [])
    (h : ∀ c ∈ cells, c = none) : modeTop cells = some none := by
  cases cells with
  | nil => exact absurd rfl hne
  | cons c cs =>
    have hc : c = none := h c (by simp)
    subst hc
    have hfs : firstSeen (none :: cs) = [none] := by
      show (if (none : Cell) ∈ ([] : List Cell) then firstSeenAux cs []
        else none :: firstSeenAux cs [none]) = [none]
      rw [if_neg (by simp)]
      rw [firstSeenAux_all_none cs [none] (fun x hx => h x (by simp [hx])) (by simp)]
    unfold modeTop
    rw [hfs]
    rfl

theorem argmaxCount_eq_none_iff (xs l : List Cell) :
    argmaxCount xs l = none ↔ l = [] := by
  cases l with
  | nil => simp [argmaxCount]
  | cons v vs =>
    simp only [argmaxCount]
    cases argmaxCount xs vs with
    | none => simp
    | some w =>
      dsimp only
      split <;> simp

theorem argmaxCount_mem (xs l : List Cell) (w : Cell)
    (h : argmaxCount xs l = some w) : w ∈ l := by
  induction l with
  | nil => cases h
  | cons v vs ih =>
    simp only [argmaxCount] at h
    cases hx : argmaxCount xs vs with
    | none =>
      rw [hx] at h
      cases h
      simp
    | some u =>
      rw [hx] at h
      dsimp only at h
      split at h
      · cases h
        exact List.mem_cons_of_mem v (ih hx)
      · cases h
        simp

theorem argmaxCount_le (xs l : List Cell) : ∀ w : Cell,
    argmaxCount xs l = some w → ∀ u ∈ l, xs.count u ≤ xs.count w := by
  induction l with
  | nil =>
    intro w h
    cases h
  | cons v vs ih =>
    intro w h
    simp only [argmaxCount] at h
    cases hx : argmaxCount xs vs with
    | none =>
      have hvs : vs = [] := (argmaxCount_eq_none_iff xs vs).mp hx
      rw [hx] at h
      cases h
      subst hvs
      intro u hu
      rw [List.mem_singleton.mp hu]
    | some u0 =>
      rw [hx] at h
      dsimp only at h
      split at h
      · cases h
        intro u hu
        rcases List.mem_cons.mp hu with rfl | hmem
        · rename_i hgt
          exact Nat.le_of_lt hgt
        · exact ih w hx u hmem
      · cases h
        intro u hu
        rename_i hng
        rcases List.mem_cons.mp hu with rfl | hmem
        · exact Nat.le_refl _
        · exact Nat.le_trans (ih u0 hx u hmem) (Nat.le_of_not_lt hng)

theorem mem_firstSeenAux (l : List Cell) : ∀ (seen : List Cell) (x : Cell),
    x ∈ firstSeenAux l seen ↔ x ∈ l ∧ x ∉ seen := by
  induction l with
  | nil =>
    intro seen x
    simp [firstSeenAux]
  | cons a l ih =>
    intro seen x
    by_cases ha : a ∈ seen
    · show x ∈ (if a ∈ seen then firstSeenAux l seen else a :: firstSeenAux l (a :: seen))
        ↔ _
      rw [if_pos ha, ih seen x]
      constructor
      · rintro ⟨hx, hnx⟩
        exact ⟨List.mem_cons_of_mem a hx, hnx⟩
      · rintro ⟨hx, hnx⟩
        rcases List.mem_cons.mp hx with rfl | hmem
        · exact absurd ha hnx
        · exact ⟨hmem, hnx⟩
    · show x ∈ (if a ∈ seen then firstSeenAux l seen else a :: firstSeenAux l (a :: seen))
        ↔ _
      rw [if_neg ha]
      by_cases hxa : x = a
      · subst hxa
        simp [ha]
      · constructor
        · intro hx
          rcases List.mem_cons.mp hx with rfl | hmem
          · exact ⟨List.mem_cons_self _ _, ha⟩
          · have := (ih (a :: seen) x).mp hmem
            refine ⟨List.mem_cons_of_mem a this.1, fun hs => this.2 (List.mem_cons_of_mem a hs)⟩
        · rintro ⟨hx, hnx⟩
          rcases List.mem_cons.mp hx with rfl | hmem
          · exact absurd rfl hxa
          · exact List.mem_cons_of_mem a ((ih (a :: seen) x).mpr
              ⟨hmem, fun hs => (List.mem_cons.mp hs).elim hxa hnx⟩)

theorem mem_firstSeen (l : List Cell) (x : Cell) : x ∈ firstSeen l ↔ x ∈ l := by
  rw [firstSeen, mem_firstSeenAux]
  simp

theorem modeTop_null_dominant (cells : List Cell)
    (h : ∀ v : Val, cells.count (some v) < cells.count none) :
    modeTop cells = some none := by
  have hnn : none ∈ cells := by
    have hpos : 0 < cells.count none :=
      Nat.lt_of_le_of_lt (Nat.zero_le _) (h (Val.num 0))
    exact List.count_pos_iff.mp hpos
  have hfs : none ∈ firstSeen cells := (mem_firstSeen cells none).mpr hnn
  cases hm : modeTop cells with
  | none =>
    unfold modeTop at hm
    have : firstSeen cells = [] := (argmaxCount_eq_none_iff _ _).mp hm
    rw [this] at hfs
    cases hfs
  | some w =>
    unfold modeTop at hm
    cases w with
    | none => rfl
    | some v =>
      have hle := argmaxCount_le cells (firstSeen cells) (some v) hm none hfs
      exact absurd hle (Nat.not_le.mpr (h v))

/-- The single-column table showing mode imputation groups nulls: two nulls
and one value 1. -/
def modeCexT : Table := ⟨[("age", true)], [[none], [none], [some (Val.num 1)]]⟩

/-- C3 counterexample: on a column holding [null, null, 1], the mode of the
non-null values is 1 — so the claim demands the nulls be filled with 1 — but
the handler's `groupBy` counts the null group (2 occurrences) above the value
1 (1 occurrence), the statistic comes back null, and the column is returned
with its nulls intact. -/
theorem mode_ignores_nulls_counterexample :
    handle_missing_values modeCexT "mode" [] none = some modeCexT ∧
    specModeNonNull (colCells modeCexT "age") = some (Val.num 1) ∧
    [none] ∈ modeCexT.rows := by
  refine ⟨by decide, by decide, by decide⟩

/-- C3 (amended): the median and mean statistics are computed over the
column's non-null values only, and an all-null column yields a null
statistic for all three strategies and is left unfilled with no error; but
the mode statistic is computed over all cells including nulls (most frequent
cell, first-encountered winning ties), so whenever null is strictly the most
frequent cell the statistic is null and the column is left unfilled even
though the non-null values have a mode.  On the null-free column [1,1,2,3]
the mode statistic is 1, and on [1,1,2,3,null] the null is filled with 1. -/
theorem stat_fill_spec :
    (∀ cells : List Cell,
      medianStat (cells.filter (fun cell => cell.isSome)) = medianStat cells) ∧
    (∀ cells : List Cell,
      meanStat (cells.filter (fun cell => cell.isSome)) = meanStat cells) ∧
    (∀ cells : List Cell, cells ≠ [] → (∀ c ∈ cells, c = none) →
      medianStat cells = none ∧ meanStat cells = none ∧ modeTop cells = some none) ∧
    (∀ cells : List Cell, (∀ v : Val, cells.count (some v) < cells.count none) →
      modeTop cells = some none) ∧
    modeTop [some (Val.num 1), some (Val.num 1), some (Val.num 2), some (Val.num 3)]
      = some (some (Val.num 1)) ∧
    handle_missing_values
      ⟨[("age", true)],
        [[some (Val.num 1)], [some (Val.num 1)], [some (Val.num 2)], [some (Val.num 3)],
          [none]]⟩ "mode" [] none
      = some ⟨[("age", true)],
        [[some (Val.num 1)], [some (Val.num 1)], [some (Val.num 2)], [some (Val.num 3)],
          [some (Val.num 1)]]⟩ := by
  refine ⟨?_, ?_, ?_, modeTop_null_dominant, by decide, by decide⟩
  · intro cells
    unfold medianStat
    rw [ratsOf_filter_isSome]
  · intro cells
    unfold meanStat
    rw [ratsOf_filter_isSome]
  · intro cells hne hall
    have hr : ratsOf cells = [] := ratsOf_all_none cells hall
    refine ⟨?_, ?_, modeTop_all_none cells hne hall⟩
    · unfold medianStat
      rw [hr]
      rfl
    · unfold meanStat
      rw [hr]
      rfl

/-- C3 witness: instances of the conditional parts of `stat_fill_spec` — the
all-null singleton column has null statistics, and a column where null
strictly dominates has a null mode statistic. -/
theorem stat_fill_spec_witness :
    (medianStat [(none : Cell)] = none ∧ meanStat [(none : Cell)] = none ∧
      modeTop [(none : Cell)] = some none) ∧
    modeTop [none, none, some (Val.num 1)] = some none :=
  ⟨stat_fill_spec.2.2.1 [none] (by decide) (by decide),
   stat_fill_spec.2.2.2.1 [none, none, some (Val.num 1)] (by
    intro v
    by_cases h1 : v = Val.num 1 <;>
      simp [List.count_cons, h1, List.count_singleton, List.count_eq_zero])⟩

/-! ## C6: completeness percentage -/

theorem totalMissing_le (t : Table) : totalMissing t ≤ t.rows.length * t.ncols := by
  unfold totalMissing
  have hb : ∀ x ∈ (List.range t.ncols).map (fun j => missingCount t j),
      x ≤ t.rows.length := by
    intro x hx
    rcases List.mem_map.mp hx with ⟨j, _, rfl⟩
    exact List.countP_le_length _
  have hs := List.sum_le_card_nsmul _ _ hb
  simpa [Nat.mul_comm] using hs

theorem round2_bounds (x : ℚ) (h0 : 0 ≤ x) (h1 : x ≤ 100) :
    0 ≤ round2 x ∧ round2 x ≤ 100 := by
  unfold round2
  have hlow : (0 : ℤ) ≤ round (x * 100) := by
    rw [round_eq]
    refine Int.floor_nonneg.mpr ?_
    linarith
  have hhigh : round (x * 100) ≤ 10000 := by
    rw [round_eq]
    have hlt : x * 100 + 1 / 2 < ((10001 : ℤ) : ℚ) := by
      push_cast
      linarith
    have := Int.floor_lt.mpr hlt
    omega
  constructor
  · have : ((0 : ℤ) : ℚ) ≤ ((round (x * 100) : ℤ) : ℚ) := Int.cast_le.mpr hlow
    have h100 : (0 : ℚ) < 100 := by norm_num
    exact div_nonneg (by exact_mod_cast this) (le_of_lt h100)
  · have hc : ((round (x * 100) : ℤ) : ℚ) ≤ ((10000 : ℤ) : ℚ) := Int.cast_le.mpr hhigh
    have : ((round (x * 100) : ℤ) : ℚ) ≤ 10000 := by exact_mod_cast hc
    linarith

/-- C6 (amended): for every table with at least one cell, the reported
completeness percentage lies in [0,100]; it is 100 whenever no column has a
null in any row; and the unrounded completeness formula equals 100 exactly
when no nulls exist.  (The converse for the reported value fails: rounding
to two decimals can report 100 on a table that does contain nulls — see the
counterexample — and on a zero-cell table the source divides by zero.) -/
theorem completeness_spec (t : Table) (h : t.rows.length * t.ncols ≠ 0) :
    (∀ p, completenessPct t = some p → 0 ≤ p ∧ p ≤ 100) ∧
    (totalMissing t = 0 → completenessPct t = some 100) ∧
    (completenessRaw t = 100 ↔ totalMissing t = 0) := by
  have hcpos : (0 : ℚ) < ((t.rows.length * t.ncols : Nat) : ℚ) := by
    exact_mod_cast Nat.pos_of_ne_zero h
  have hm_le : ((totalMissing t : Nat) : ℚ) ≤ ((t.rows.length * t.ncols : Nat) : ℚ) := by
    exact_mod_cast totalMissing_le t
  have hm_nonneg : (0 : ℚ) ≤ ((totalMissing t : Nat) : ℚ) := by positivity
  have hraw0 : 0 ≤ completenessRaw t := by
    unfold completenessRaw
    have : (0 : ℚ) ≤ (((t.rows.length * t.ncols : Nat) : ℚ) - (totalMissing t : ℚ)) /
        ((t.rows.length * t.ncols : Nat) : ℚ) :=
      div_nonneg (by linarith) (le_of_lt hcpos)
    linarith
  have hraw1 : completenessRaw t ≤ 100 := by
    unfold completenessRaw
    have hq : (((t.rows.length * t.ncols : Nat) : ℚ) - (totalMissing t : ℚ)) /
        ((t.rows.length * t.ncols : Nat) : ℚ) ≤ 1 := by
      rw [div_le_one hcpos]
      linarith
    linarith
  refine ⟨?_, ?_, ?_⟩
  · intro p hp
    unfold completenessPct at hp
    rw [if_neg h] at hp
    have hpe : round2 (completenessRaw t) = p := Option.some_injective _ hp
    rw [← hpe]
    exact round2_bounds _ hraw0 hraw1
  · intro hm0
    unfold completenessPct
    rw [if_neg h]
    have hraw : completenessRaw t = 100 := by
      unfold completenessRaw
      rw [hm0, Nat.cast_zero, sub_zero, div_self (ne_of_gt hcpos)]
      norm_num
    rw [hraw]
    have h2 : round2 (100 : ℚ) = 100 := by
      unfold round2
      rw [show ((100 : ℚ) * 100) = ((10000 : ℤ) : ℚ) by norm_num, round_intCast]
      norm_num
    rw [h2]
  · constructor
    · intro he
      unfold completenessRaw at he
      have h1 : (((t.rows.length * t.ncols : Nat) : ℚ) - (totalMissing t : ℚ)) /
          ((t.rows.length * t.ncols : Nat) : ℚ) = 1 := by linarith
      have h2 := (div_eq_iff (ne_of_gt hcpos)).mp h1
      have h3 : ((totalMissing t : Nat) : ℚ) = 0 := by linarith
      exact_mod_cast h3
    · intro hm0
      unfold completenessRaw
      rw [hm0, Nat.cast_zero, sub_zero, div_self (ne_of_gt hcpos)]
      norm_num

/-- C6 witness: a one-cell table with no nulls reports completeness 100. -/
theorem completeness_spec_witness :
    completenessPct ⟨[("age", true)], [[some (Val.num 7)]]⟩ = some 100 :=
  (completeness_spec ⟨[("age", true)], [[some (Val.num 7)]]⟩ (by decide)).2.1 (by decide)

/-- A 40000-row single-column table with exactly one null cell. -/
def bigT : Table := ⟨[("age", true)], List.replicate 39999 [some (Val.num 0)] ++ [[none]]⟩

/-- C6 counterexample: `bigT` has a null, yet its reported completeness is
exactly 100 — the raw completeness is 99.9975, which rounds to 100.00 — so
"completeness equals 100 iff no column has any null" fails for the value the
assessor computes. -/
theorem completeness_rounds_to_100_counterexample :
    completenessPct bigT = some 100 ∧ totalMissing bigT ≠ 0 := by
  have hrows : bigT.rows.length = 40000 := by
    rw [show bigT.rows = List.replicate 39999 [some (Val.num 0)] ++ [[none]] from rfl,
      List.length_append, List.length_replicate]
    rfl
  have hnc : bigT.ncols = 1 := rfl
  have hmc : missingCount bigT 0 = 1 := by
    show (List.replicate 39999 [some (Val.num 0)] ++ [[none]]).countP
      (fun (row : Row) => (row.getD 0 none).isNone) = 1
    rw [List.countP_append, List.countP_replicate]
    norm_num
  have htm : totalMissing bigT = 1 := by
    unfold totalMissing
    rw [hnc]
    show [missingCount bigT 0].sum = 1
    rw [hmc]
    rfl
  refine ⟨?_, by rw [htm]; norm_num⟩
  have hcells : bigT.rows.length * bigT.ncols = 40000 := by rw [hrows, hnc]
  have hraw : completenessRaw bigT = 39999 / 400 := by
    unfold completenessRaw
    rw [hcells, htm]
    norm_num
  have hround : round ((39999 : ℚ) / 4) = 10000 := by
    rw [round_eq, show (39999 : ℚ) / 4 + 1 / 2 = 40001 / 4 by norm_num]
    rw [Int.floor_eq_iff]
    norm_num
  unfold completenessPct
  rw [if_neg (by rw [hcells]; norm_num)]
  rw [hraw]
  unfold round2
  rw [show (39999 : ℚ) / 400 * 100 = 39999 / 4 by norm_num, hround]
  norm_num

/-! ## C7: numeric summary reporting -/

theorem meanStat_single_zero : meanStat [some (Val.num 0)] = some 0 := by
  show meanOf [(0 : ℚ)] = some 0
  unfold meanOf
  norm_num

/-- C7 counterexample: a numeric column holding the single value 0 has a
defined mean of 0, which the claim says is reported rounded to two decimals
(i.e. as 0.0), but the assessor's Python truthiness test
`round(stats["mean"], 2) if stats["mean"] else None` reports it as
undefined. -/
theorem reported_mean_zero_counterexample :
    reportedMean [some (Val.num 0)] = none ∧
    specReportedMean [some (Val.num 0)] = some 0 := by
  constructor
  · unfold reportedMean
    rw [meanStat_single_zero]
    simp
  · unfold specReportedMean
    rw [meanStat_single_zero]
    show some (round2 0) = some 0
    unfold round2
    norm_num

theorem varianceOf_nonneg (ys : List ℚ) (v : ℚ) (h : varianceOf ys = some v) :
    0 ≤ v := by
  unfold varianceOf at h
  split at h
  · cases h
  · rename_i hlen
    cases hm : meanOf ys with
    | none =>
      rw [hm] at h
      cases h
    | some m =>
      rw [hm] at h
      rw [← Option.some_injective _ h]
      have hs : 0 ≤ (ys.map (fun y => (y - m) ^ 2)).sum := by
        refine List.sum_nonneg ?_
        intro x hx
        rcases List.mem_map.mp hx with ⟨y, _, rfl⟩
        positivity
      have hl : (0 : ℚ) ≤ (ys.length : ℚ) - 1 := by
        have h2 : 2 ≤ ys.length := Nat.le_of_not_lt hlen
        have h2q : (2 : ℚ) ≤ (ys.length : ℚ) := by exact_mod_cast h2
        linarith
      exact div_nonneg hs hl

theorem ratsOf_replicate_num (n : Nat) (x : ℚ) :
    ratsOf (List.replicate n (some (Val.num x))) = List.replicate n x := by
  induction n with
  | zero => rfl
  | succ k ih =>
    rw [List.replicate_succ, List.replicate_succ]
    show x :: ratsOf (List.replicate k (some (Val.num x))) = x :: List.replicate k x
    rw [ih]

theorem meanOf_replicate (n : Nat) (hn : n ≠ 0) (x : ℚ) :
    meanOf (List.replicate n x) = some x := by
  cases n with
  | zero => exact absurd rfl hn
  | succ k =>
    unfold meanOf
    rw [if_neg (by simp)]
    rw [List.sum_replicate, List.length_replicate, nsmul_eq_mul]
    congr 1
    have hq : ((k + 1 : ℕ) : ℚ) ≠ 0 := by exact_mod_cast hn
    field_simp

theorem varianceOf_replicate (n : Nat) (hn : 2 ≤ n) (x : ℚ) :
    varianceOf (List.replicate n x) = some 0 := by
  unfold varianceOf
  rw [meanOf_replicate n (by omega) x, List.length_replicate, if_neg (by omega)]
  dsimp only
  rw [List.map_replicate]
  simp

/-- C7 (amended): when a numeric column's mean is defined and nonzero it is
reported rounded to two decimal places; a null mean is reported as
undefined; but a mean equal to exactly 0 is also reported as undefined
because of the Python truthiness test.  Likewise for the standard deviation:
when the sample variance is defined and nonzero the stddev (its square root)
is reported rounded to two decimal places; a null stddev — in particular
that of a single-value column — is reported as undefined, not as zero; and a
stddev of exactly 0 — in particular that of a constant column of two or more
equal values — is also reported as undefined.  Both reported values are
integer multiples of 1/100. -/
theorem numeric_summary_rounding_spec :
    (∀ cells m, meanStat cells = some m → m ≠ 0 →
      reportedMean cells = some (round2 m)) ∧
    (∀ cells, meanStat cells = none → reportedMean cells = none) ∧
    (∀ cells, meanStat cells = some 0 → reportedMean cells = none) ∧
    (∀ cells v, varianceOf (ratsOf cells) = some v → v ≠ 0 →
      reportedStddev cells = some (round2R (Real.sqrt (v : ℝ)))) ∧
    (∀ cells, varianceOf (ratsOf cells) = some 0 → reportedStddev cells = none) ∧
    (∀ cells, varianceOf (ratsOf cells) = none → reportedStddev cells = none) ∧
    (∀ x : ℚ, reportedStddev [some (Val.num x)] = none) ∧
    (∀ x : ℚ, ∀ n : Nat, 2 ≤ n →
      reportedStddev (List.replicate n (some (Val.num x))) = none) ∧
    (∀ q : ℚ, ∃ z : ℤ, round2 q = (z : ℚ) / 100) ∧
    (∀ x : ℝ, ∃ z : ℤ, round2R x = (z : ℝ) / 100) := by
  have hvzero : ∀ cells, varianceOf (ratsOf cells) = some 0 →
      reportedStddev cells = none := by
    intro cells h
    unfold reportedStddev
    rw [h]
    simp
  refine ⟨?_, ?_, ?_, ?_, hvzero, ?_, ?_, ?_,
    fun q => ⟨round (q * 100), rfl⟩, fun x => ⟨round (x * 100), rfl⟩⟩
  · intro cells m hm hne
    unfold reportedMean
    rw [hm]
    simp [hne]
  · intro cells hm
    unfold reportedMean
    rw [hm]
  · intro cells hm
    unfold reportedMean
    rw [hm]
    simp
  · intro cells v hv hne
    have h0 : 0 ≤ v := varianceOf_nonneg _ _ hv
    have hpos : (0 : ℝ) < (v : ℝ) := by
      exact_mod_cast lt_of_le_of_ne h0 (Ne.symm hne)
    unfold reportedStddev
    rw [hv]
    dsimp only
    rw [if_neg (ne_of_gt (Real.sqrt_pos.mpr hpos))]
  · intro cells hv
    unfold reportedStddev
    rw [hv]
  · intro x
    rfl
  · intro x n hn
    apply hvzero
    rw [ratsOf_replicate_num]
    exact varianceOf_replicate n hn x

/-- C7 witness: a column with the single value 2 reports mean `round2 2`,
and a column with values 0, 2, 4 (sample variance 4) reports stddev
`round2R (sqrt 4)`. -/
theorem numeric_summary_rounding_witness :
    reportedMean [some (Val.num 2)] = some (round2 2) ∧
    reportedStddev [some (Val.num 0), some (Val.num 2), some (Val.num 4)] =
      some (round2R (Real.sqrt ((4 : ℚ) : ℝ))) :=
  ⟨numeric_summary_rounding_spec.1 [some (Val.num 2)] 2
    (by
      show meanOf [(2 : ℚ)] = some 2
      unfold meanOf
      norm_num)
    (by norm_num),
   numeric_summary_rounding_spec.2.2.2.1
    [some (Val.num 0), some (Val.num 2), some (Val.num 4)] 4
    (by
      show varianceOf [(0 : ℚ), 2, 4] = some 4
      unfold varianceOf meanOf
      norm_num)
    (by norm_num)⟩
